import Mathlib

/-!
Verification of the magazine-style biography generator
(`biography_pdf_generator.py`): the photo–chapter matching score, the
de-duplication (used-image) policy, the pull-quote extractor, the layout
selector, and the document-assembly orchestration.

Text is modelled as `List Char`; Python string operations are embedded
faithfully for the ASCII range the data uses (Python's `str.lower`,
`\w`, `str.strip` are Unicode-aware; the catalog and chapter text here
are ASCII).
-/

/-- Python truthiness-relevant whitespace for `str.strip`. -/
def pySpace (c : Char) : Bool :=
  c = ' ' || c = '\t' || c = '\n' || c = '\r' || c = '\x0b' || c = '\x0c'

/-- `str.strip()`: drop whitespace from both ends. -/
def pyStrip (cs : List Char) : List Char :=
  ((cs.dropWhile pySpace).reverse.dropWhile pySpace).reverse

/-- Lower-case a string (`str.lower()`, ASCII model). -/
def lowerStr (cs : List Char) : List Char := cs.map Char.toLower

/-- Does `hay` start with `needle`? (helper for substring search). -/
def begMatch : List Char → List Char → Bool
  | [], _ => true
  | _ :: _, [] => false
  | a :: as, b :: bs => a = b && begMatch as bs

/-- Python `needle in hay` substring test. -/
def hasSub (needle : List Char) : List Char → Bool
  | [] => needle.isEmpty
  | c :: rest => begMatch needle (c :: rest) || hasSub needle rest

/-- Sentence-terminating punctuation of `re.split(r'[.!?]+', text)`. -/
def isTermChar (c : Char) : Bool := c = '.' || c = '!' || c = '?'

/-- `re.split(r'[.!?]+', text)`: split on maximal runs of `.`/`!`/`?`;
consecutive terminators produce one split point, a leading/trailing run
produces an empty piece. -/
def splitTerm : List Char → List (List Char)
  | [] => [[]]
  | c :: rest =>
    if isTermChar c then
      match rest with
      | c2 :: _ =>
        if isTermChar c2 then splitTerm rest else [] :: splitTerm rest
      | [] => [] :: splitTerm rest
    else
      match splitTerm rest with
      | [] => [[c]]
      | p :: ps => (c :: p) :: ps

/-- The fixed emotional keyword list of `_extract_pull_quote`. -/
def emotionalWords : List (List Char) :=
  ["love".toList, "remember".toList, "never".toList, "always".toList, "first".toList]

/-- Pass-1 qualification of `_extract_pull_quote`: a quote mark or `!`, or
an emotional keyword as a case-insensitive substring. -/
def pullQuoteEmotive (clean : List Char) : Bool :=
  (clean.any fun c => c = '"' || c = '\'' || c = '!') ||
    emotionalWords.any fun w => hasSub w (lowerStr clean)

/-- `_extract_pull_quote(text, max_length)`: split into sentences, pass 1
returns the first sentence of trimmed length in `(30, maxLength)` that is
emotive, pass 2 the first of trimmed length in `(40, maxLength)`; a period
is appended to the returned text. -/
def extractPullQuote (text : List Char) (maxLength : Nat := 150) : Option (List Char) :=
  let sentences := splitTerm text
  match sentences.find? (fun s =>
      let clean := pyStrip s
      30 < clean.length && clean.length < maxLength && pullQuoteEmotive clean) with
  | some s => some (pyStrip s ++ ['.'])
  | none =>
    match sentences.find? (fun s =>
        let clean := pyStrip s
        40 < clean.length && clean.length < maxLength) with
    | some s => some (pyStrip s ++ ['.'])
    | none => none

/-- `\w` word character (ASCII model of `re`). -/
def isWordChar (c : Char) : Bool := c.isAlphanum || c = '_'

/-- Accumulator pass splitting a string into maximal word-character runs. -/
def tokensAux : List Char → List Char → List (List Char)
  | cur, [] => if cur.isEmpty then [] else [cur.reverse]
  | cur, c :: rest =>
    if isWordChar c then tokensAux (c :: cur) rest
    else if cur.isEmpty then tokensAux [] rest
    else cur.reverse :: tokensAux [] rest

/-- Maximal `\w`-runs of a string; `re.findall(r'\b\w{4,}\b', s)` is the
sublist of runs of length ≥ 4. -/
def wordTokens (cs : List Char) : List (List Char) := tokensAux [] cs

/-- Numeric value of a decimal digit character. -/
def digitVal (c : Char) : Nat := c.toNat - '0'.toNat

/-- `re.search(r'(\d{4})', title)`: the leftmost run of four consecutive
digits, as a number, if any. -/
def findYear : List Char → Option Nat
  | c1 :: c2 :: c3 :: c4 :: rest =>
    if c1.isDigit && c2.isDigit && c3.isDigit && c4.isDigit then
      some (digitVal c1 * 1000 + digitVal c2 * 100 + digitVal c3 * 10 + digitVal c4)
    else findYear (c2 :: c3 :: c4 :: rest)
  | _ => none

/-- One photo-catalog row (`media` table row as loaded by
`generate_biography_pdf`; absent text fields are already the empty
string there). -/
structure Photo where
  id : Nat
  filename : String
  title : List Char
  description : List Char
  year : Option Int
  people : List Char
deriving DecidableEq, Repr

/-- A chapter of the biography. -/
structure Chapter where
  title : List Char
  narrative : List Char
deriving DecidableEq, Repr

/-- `f"{photo['title']} {photo['description']} {photo['people']}".lower()`. -/
def photoCombined (p : Photo) : List Char :=
  lowerStr (p.title ++ ' ' :: p.description ++ ' ' :: p.people)

/-- `f"{chapter_title} {chapter_text}".lower()`. -/
def chapterCombined (title text : List Char) : List Char :=
  lowerStr (title ++ ' ' :: text)

/-- Year term of `_match_photos_to_chapter`.  The Python guard is
`if chapter_year and photo.get('year')`: both years must be present AND
nonzero (Python truthiness) before the difference is scored. -/
def yearScore (cy : Option Nat) (py : Option Int) : Nat :=
  match cy, py with
  | some c, some y =>
    if c ≠ 0 ∧ y ≠ 0 then
      let d := (y - (c : Int)).natAbs
      if d = 0 then 100 else if d ≤ 2 then 50 else if d ≤ 5 then 20 else 0
    else 0
  | _, _ => 0

/-- Family-name term: `+30` for each configured name whose lower-case form
is a substring of both the photo text and the chapter text. -/
def nameScore (names : List (List Char)) (ptext ctext : List Char) : Nat :=
  names.foldl
    (fun s n => if hasSub (lowerStr n) ptext && hasSub (lowerStr n) ctext then s + 30 else s) 0

/-- Keywords of a chapter: `re.findall(r'\b\w{4,}\b', chapter_combined[:500])`. -/
def chapterKeywords (ctext : List Char) : List (List Char) :=
  (wordTokens (ctext.take 500)).filter fun t => 4 ≤ t.length

/-- Keyword term: `+5` for each distinct keyword that is a substring of the
photo text (the Python loop runs over `set(keywords)`). -/
def kwScore (keywords : List (List Char)) (ptext : List Char) : Nat :=
  keywords.dedup.foldl (fun s k => if hasSub k ptext then s + 5 else s) 0

/-- The total matching score of one candidate photo against a chapter
(`_match_photos_to_chapter` loop body). -/
def scorePhoto (names : List (List Char)) (chTitle chText : List Char) (p : Photo) : Nat :=
  let cc := chapterCombined chTitle chText
  yearScore (findYear chTitle) p.year
    + nameScore names (photoCombined p) cc
    + kwScore (chapterKeywords cc) (photoCombined p)

/-- Insert one scored candidate into a descending-sorted list, before the
first entry of score ≤ its own (stable descending insertion). -/
def insDesc (x : Nat × Photo) : List (Nat × Photo) → List (Nat × Photo)
  | [] => [x]
  | y :: ys => if y.1 ≤ x.1 then x :: y :: ys else y :: insDesc x ys

/-- Stable descending sort by score.  CPython's `list.sort(reverse=True,
key=…)` is a stable descending sort; any two stable sorts under the same
total preorder agree, so this insertion sort computes the same list. -/
def sortDesc : List (Nat × Photo) → List (Nat × Photo)
  | [] => []
  | x :: xs => insDesc x (sortDesc xs)

/-- The scored-candidate list: unused photos with positive score, paired
with their scores, in catalog-encounter order. -/
def scoredList (names : List (List Char)) (chTitle chText : List Char)
    (photos : List Photo) (used : Finset String) : List (Nat × Photo) :=
  photos.filterMap fun p =>
    if p.filename ∈ used then none
    else if 0 < scorePhoto names chTitle chText p then
      some (scorePhoto names chTitle chText p, p)
    else none

/-- `_match_photos_to_chapter`: score the unused candidates, sort stably by
descending score, keep the top `maxPhotos`, and mark each selected filename
used.  Returns the selection and the grown used set. -/
def selectedPhotos (names : List (List Char)) (chTitle chText : List Char)
    (photos : List Photo) (used : Finset String) (maxPhotos : Nat) : List Photo :=
  ((sortDesc (scoredList names chTitle chText photos used)).take maxPhotos).map (·.2)

def matchPhotos (names : List (List Char)) (chTitle chText : List Char)
    (photos : List Photo) (used : Finset String) (maxPhotos : Nat) :
    List Photo × Finset String :=
  (selectedPhotos names chTitle chText photos used maxPhotos,
   (selectedPhotos names chTitle chText photos used maxPhotos).foldl
     (fun s p => insert p.filename s) used)

/-- Case-insensitive match of `name` at the head of the text
(`re.IGNORECASE` on an escaped literal pattern). -/
def matchCI : List Char → List Char → Bool
  | [], _ => true
  | _ :: _, [] => false
  | a :: as, b :: bs => (a.toLower = b.toLower) && matchCI as bs

/-- Is the optional character a `\w` character (`none` = string edge)? -/
def isWOpt : Option Char → Bool
  | none => false
  | some c => isWordChar c

/-- `\b`: a word boundary lies between two (optional) characters iff
exactly one side is a word character. -/
def bdry (a b : Option Char) : Bool := isWOpt a != isWOpt b

/-- Opening wrapper emitted by `_highlight_names`. -/
def spanOpen : List Char := "<span class=\"highlight-name\">".toList

/-- Closing wrapper emitted by `_highlight_names`. -/
def spanClose : List Char := "</span>".toList

/-- One `re.sub(r'\b(name)\b', wrapper, text, flags=IGNORECASE)` scan:
left-to-right, non-overlapping; on a boundary-delimited case-insensitive
occurrence the original matched text is wrapped and scanning resumes after
it.  (For `name = []` the guard never fires and the text is returned
unchanged; the configuration never contains an empty family name.) -/
def subNameAux (name : List Char) : Option Char → List Char → List Char
  | _, [] => []
  | prev, c :: rest =>
    if h : name ≠ [] ∧ matchCI name (c :: rest) = true ∧ bdry prev (some c) = true ∧
        bdry ((c :: rest).take name.length).getLast? ((c :: rest).drop name.length).head? = true then
      spanOpen ++ (c :: rest).take name.length ++ spanClose ++
        subNameAux name ((c :: rest).take name.length).getLast? ((c :: rest).drop name.length)
    else
      c :: subNameAux name (some c) rest
termination_by _ cs => cs.length
decreasing_by
  · have hn : 0 < name.length := List.length_pos.mpr h.1
    simp only [List.length_drop, List.length_cons]
    omega
  · simp

/-- One pass of `_highlight_names` for one name. -/
def subName (name text : List Char) : List Char := subNameAux name none text

/-- `_highlight_names`: the configured names are substituted in order,
each pass running over the previous pass's output. -/
def highlightNames (names : List (List Char)) (text : List Char) : List Char :=
  names.foldl (fun t n => subName n t) text

/-- `narrative.split('\n\n')` (non-overlapping, left to right). -/
def splitParas : List Char → List (List Char)
  | [] => [[]]
  | '\n' :: '\n' :: rest => [] :: splitParas rest
  | c :: rest =>
    match splitParas rest with
    | [] => [[c]]
    | p :: ps => (c :: p) :: ps

/-- `[p.strip() for p in narrative.split('\n\n') if p.strip()]`. -/
def makeParagraphs (narr : List Char) : List (List Char) :=
  ((splitParas narr).map pyStrip).filter fun p => ¬ p.isEmpty

/-- One structured block of the produced chapter markup.  Captions and the
cosmetic two-column flag carry no decision logic and are not recorded. -/
inductive Block where
  | para (text : List Char)
  | quote (text : List Char)
  | fullImage (filename : String)
  | embedImage (filename : String)
  | photoGrid (filenames : List String)
deriving DecidableEq, Repr

/-- The four chapter layouts of `_create_chapter_html`. -/
inductive Layout where
  | facing
  | grid
  | embedded
  | simple
deriving DecidableEq, Repr

/-- The layout decision cascade of `_create_chapter_html`, in source order:
`has_photos and len(photos) == 1 and text_length > 800`, then
`has_photos and len(photos) >= 2`, then
`has_photos and len(photos) == 1 and text_length > 400`, else simple. -/
def chapterLayout (numPhotos textLen : Nat) : Layout :=
  if 0 < numPhotos ∧ numPhotos = 1 ∧ 800 < textLen then .facing
  else if 0 < numPhotos ∧ 2 ≤ numPhotos then .grid
  else if 0 < numPhotos ∧ numPhotos = 1 ∧ 400 < textLen then .embedded
  else .simple

/-- `_create_photo_layout`: a grid of the resolvable photos; photos whose
path cannot be resolved are skipped individually. -/
def photoLayout (resolve : String → Option String) (photos : List Photo) : List Block :=
  if photos.isEmpty then []
  else
    [Block.photoGrid (photos.filterMap fun p =>
      if (resolve p.filename).isSome then some p.filename else none)]

/-- Facing-spread text body: every paragraph, with the pull quote (when
present) inserted right after the paragraph at index `halfway`. -/
def facingBody (pq : Option (List Char)) (halfway : Nat) : Nat → List (List Char) → List Block
  | _, [] => []
  | i, p :: ps =>
    Block.para p ::
      ((if i = halfway then (match pq with | some q => [Block.quote q] | none => []) else []) ++
        facingBody pq halfway (i + 1) ps)

/-- The block sequence of one chapter after the pull quote, paragraph
list and text length have been computed (`_create_chapter_html` body).
In the facing-spread branch the whole body (image AND narrative) sits
under the photo-resolution guard, exactly as in the source. -/
def chapterBody (resolve : String → Option String) (pq : Option (List Char))
    (paras : List (List Char)) (textLen : Nat) (photos : List Photo) : List Block :=
  match chapterLayout photos.length textLen with
  | .facing =>
    match photos with
    | [] => []
    | p0 :: _ =>
      match resolve p0.filename with
      | some _ => Block.fullImage p0.filename :: facingBody pq (paras.length / 2) 0 paras
      | none => []
  | .grid =>
    (match paras with | [] => [] | p :: _ => [Block.para p]) ++
      (match pq with | some q => [Block.quote q] | none => []) ++
      photoLayout resolve (photos.take 3) ++
      (if 1 < paras.length then paras.tail.map Block.para else [])
  | .embedded =>
    (match paras with | [] => [] | p :: _ => [Block.para p]) ++
      (match photos with
        | [] => []
        | p0 :: _ =>
          match resolve p0.filename with
          | some _ => [Block.embedImage p0.filename]
          | none => []) ++
      paras.tail.map Block.para
  | .simple =>
    paras.map Block.para ++
      (match pq with | some q => [Block.quote q] | none => []) ++
      (if photos.isEmpty then [] else photoLayout resolve photos)

/-- `_create_chapter_html`: emphasis is applied to the narrative, the pull
quote is extracted from the emphasised text, the paragraphs are split from
it, and the layout cascade produces the blocks of the chapter. -/
def createChapterHtml (resolve : String → Option String) (names : List (List Char))
    (ch : Chapter) (photos : List Photo) : List Block :=
  chapterBody resolve (extractPullQuote (highlightNames names ch.narrative) 150)
    (makeParagraphs (highlightNames names ch.narrative))
    (highlightNames names ch.narrative).length photos

/-- The catalog actually used by a run: on a load failure the generator
logs the error and proceeds with the empty list (`except` block of
`generate_biography_pdf`). -/
def availableOf : Except Unit (List Photo) → List Photo
  | .ok l => l
  | .error _ => []

/-- Cover auto-selection scan: the first photo with tagged people or
`'family'` in its lower-cased title whose path resolves.  A qualifying
photo that fails to resolve does not stop the scan. -/
def coverScan (resolve : String → Option String) : List Photo → Option Photo
  | [] => none
  | p :: rest =>
    if ¬ p.people.isEmpty || hasSub "family".toList (lowerStr p.title) then
      match resolve p.filename with
      | some _ => some p
      | none => coverScan resolve rest
    else coverScan resolve rest

/-- Cover auto-selection (`elif available_photos:` branch): scan for a
qualifying photo, else fall back to the first catalog photo; the photo
actually displayed is marked used. -/
def coverAuto (resolve : String → Option String) (photos : List Photo)
    (used : Finset String) : Option String × Finset String :=
  match coverScan resolve photos with
  | some p => (some p.filename, insert p.filename used)
  | none =>
    match photos with
    | [] => (none, used)
    | p0 :: _ =>
      match resolve p0.filename with
      | some _ => (some p0.filename, insert p0.filename used)
      | none => (none, used)

/-- Cover-page selection of `generate_biography_pdf`, starting from the
freshly reset (empty) used set: an explicit hero photo is resolved but NOT
marked used; otherwise (`elif available_photos:`) a catalog photo is
auto-selected and marked used. -/
def coverStep (resolve : String → Option String) (available : List Photo)
    (heroPhoto : Option String) : Option String × Finset String :=
  match heroPhoto with
  | some h => (if (resolve h).isSome then some h else none, (∅ : Finset String))
  | none =>
    match available with
    | [] => (none, (∅ : Finset String))
    | _ :: _ => coverAuto resolve available ∅

/-- Record of one `_match_photos_to_chapter` invocation: the used set on
entry, the returned photos, the used set on exit. -/
structure CallRec where
  before : Finset String
  returned : List Photo
  after : Finset String
deriving DecidableEq

/-- Thumbnail-map update of one TOC iteration: when the matcher returned a
photo and its path resolves, store it under the chapter title. -/
def tocThumbUpdate (resolve : String → Option String) (chTitle : List Char)
    (sel : List Photo) (thumbs : List (List Char × String)) :
    List (List Char × String) :=
  match sel with
  | [] => thumbs
  | p :: _ =>
    match resolve p.filename with
    | some _ => (chTitle, p.filename) :: thumbs
    | none => thumbs

/-- TOC pre-collection loop: one `maxPhotos=1` matcher call per chapter;
when the match is nonempty and its path resolves, the thumbnail map gains
an entry keyed by the chapter title (later same-title entries shadow
earlier ones, like Python dict assignment). -/
def tocLoop (names : List (List Char)) (available : List Photo)
    (resolve : String → Option String) (used : Finset String)
    (thumbs : List (List Char × String)) :
    List Chapter → Finset String × List (List Char × String) × List CallRec
  | [] => (used, thumbs, [])
  | ch :: rest =>
    let r := matchPhotos names ch.title ch.narrative available used 1
    let rec' := tocLoop names available resolve r.2
      (tocThumbUpdate resolve ch.title r.1 thumbs) rest
    (rec'.1, rec'.2.1, ⟨used, r.1, r.2⟩ :: rec'.2.2)

/-- Python dict lookup on the thumbnail map (newest entry shadows). -/
def lookupThumb (m : List (List Char × String)) (k : List Char) : Option String :=
  (m.find? fun e => e.1 = k).map (·.2)

/-- Chapter rendering loop: one `maxPhotos=3` matcher call per chapter,
then `_create_chapter_html` on the selection. -/
def chapLoop (names : List (List Char)) (available : List Photo)
    (resolve : String → Option String) (used : Finset String) :
    List Chapter → Finset String × List (List Block) × List CallRec
  | [] => (used, [], [])
  | ch :: rest =>
    let r := matchPhotos names ch.title ch.narrative available used 3
    let blocks := createChapterHtml resolve names ch r.1
    let rec' := chapLoop names available resolve r.2 rest
    (rec'.1, blocks :: rec'.2.1, ⟨used, r.1, r.2⟩ :: rec'.2.2)

/-- The structured outcome of one `generate_biography_pdf` run: which
filename the cover displays, the thumbnail map, the TOC entries (title and
displayed thumbnail filename, in chapter order), each chapter's blocks,
the final used set, and the trace of matcher calls (TOC calls first, then
chapter calls, as executed). -/
structure RunResult where
  coverFilename : Option String
  thumbs : List (List Char × String)
  tocEntries : List (List Char × Option String)
  chapterBlocks : List (List Block)
  used : Finset String
  calls : List CallRec

/-- `generate_biography_pdf` orchestration.  The used set is reset; the
cover is the resolved explicit hero photo (NOT marked used) or an
auto-selected catalog photo (marked used); TOC thumbnails are matched per
chapter with `maxPhotos=1`; chapters are matched with `maxPhotos=3` and
rendered. -/
def generateBiography (names : List (List Char)) (chapters : List Chapter)
    (catalogResult : Except Unit (List Photo)) (heroPhoto : Option String)
    (resolve : String → Option String) : RunResult :=
  let available := availableOf catalogResult
  let cov := coverStep resolve available heroPhoto
  let toc := tocLoop names available resolve cov.2 [] chapters
  let tocEntries := chapters.map fun ch => (ch.title, lookupThumb toc.2.1 ch.title)
  let chaps := chapLoop names available resolve toc.1 chapters
  { coverFilename := cov.1
    thumbs := toc.2.1
    tocEntries := tocEntries
    chapterBlocks := chaps.2.1
    used := chaps.1
    calls := toc.2.2 ++ chaps.2.2 }

/-- Filenames displayed by one block. -/
def blockFilenames : Block → List String
  | .fullImage f => [f]
  | .embedImage f => [f]
  | .photoGrid fs => fs
  | _ => []

/-- Filenames displayed by a chapter's blocks. -/
def chapterFilenames (bs : List Block) : List String :=
  bs.foldr (fun b acc => blockFilenames b ++ acc) []

/-- Thumbnail filenames the TOC entries display. -/
def tocDisplayed (res : RunResult) : List String :=
  res.tocEntries.filterMap (·.2)

/-- Filenames displayed anywhere in the chapters. -/
def chaptersDisplayed (res : RunResult) : List String :=
  res.chapterBlocks.foldr (fun bs acc => chapterFilenames bs ++ acc) []

/-- Spec-worded year term exactly as claim C3 states it: scored whenever
both years are PRESENT. -/
def claimYearTerm (cy : Option Nat) (py : Option Int) : Nat :=
  match cy, py with
  | some c, some y =>
    if (y - (c : Int)).natAbs = 0 then 100
    else if (y - (c : Int)).natAbs ≤ 2 then 50
    else if (y - (c : Int)).natAbs ≤ 5 then 20
    else 0
  | _, _ => 0

/-- Year term as the amended claim states it: scored only when both years
are present and nonzero. -/
def claimYearTermFixed (cy : Option Nat) (py : Option Int) : Nat :=
  match cy, py with
  | some c, some y =>
    if c = 0 ∨ y = 0 then 0
    else if (y - (c : Int)).natAbs = 0 then 100
    else if (y - (c : Int)).natAbs ≤ 2 then 50
    else if (y - (c : Int)).natAbs ≤ 5 then 20
    else 0
  | _, _ => 0

/-- Spec-worded name term: 30 per configured family name appearing
(case-insensitively) in both texts. -/
def claimNameTerm (names : List (List Char)) (ptext ctext : List Char) : Nat :=
  30 * names.countP fun n => hasSub (lowerStr n) ptext && hasSub (lowerStr n) ctext

/-- Spec-worded keyword term: 5 per distinct keyword occurring as a
substring of the photo text. -/
def claimKwTerm (cc ptext : List Char) : Nat :=
  5 * (chapterKeywords cc).dedup.countP fun k => hasSub k ptext

/-- The claim-C3 score formula, verbatim (year term on presence). -/
def claimScore (names : List (List Char)) (chTitle chText : List Char) (p : Photo) : Nat :=
  claimYearTerm (findYear chTitle) p.year
    + claimNameTerm names (photoCombined p) (chapterCombined chTitle chText)
    + claimKwTerm (chapterCombined chTitle chText) (photoCombined p)

/-- The amended claim-C3 score formula (year term on presence and
nonzeroness). -/
def claimScoreFixed (names : List (List Char)) (chTitle chText : List Char) (p : Photo) : Nat :=
  claimYearTermFixed (findYear chTitle) p.year
    + claimNameTerm names (photoCombined p) (chapterCombined chTitle chText)
    + claimKwTerm (chapterCombined chTitle chText) (photoCombined p)

/-- The calls of a run chain the used set: each call starts from the
previous call's exit set. -/
def chained (u : Finset String) : List CallRec → Finset String → Prop
  | [], v => u = v
  | c :: cs, v => c.before = u ∧ chained c.after cs v

/-- Is a block pure text (paragraph or pull quote)? -/
def isTextBlock : Block → Bool
  | .para _ => true
  | .quote _ => true
  | _ => false

theorem foldl_add_if (k : Nat) (P : α → Bool) :
    ∀ (l : List α) (s0 : Nat),
      l.foldl (fun s n => if P n then s + k else s) s0 = s0 + k * l.countP P
  | [], s0 => by simp
  | a :: l, s0 => by
    rw [List.foldl_cons, foldl_add_if k P l, List.countP_cons]
    by_cases h : P a <;> simp [h, Nat.mul_add, Nat.mul_succ] <;> omega

theorem yearScore_eq_fixed (cy : Option Nat) (py : Option Int) :
    yearScore cy py = claimYearTermFixed cy py := by
  cases cy with
  | none => rfl
  | some c =>
    cases py with
    | none => rfl
    | some y =>
      simp only [yearScore, claimYearTermFixed]
      by_cases hc : c = 0 <;> by_cases hy : y = 0 <;> simp [hc, hy]

theorem nameScore_eq_claim (names : List (List Char)) (ptext ctext : List Char) :
    nameScore names ptext ctext = claimNameTerm names ptext ctext := by
  unfold nameScore claimNameTerm
  rw [foldl_add_if]
  omega

theorem kwScore_eq_claim (cc ptext : List Char) :
    kwScore (chapterKeywords cc) ptext = claimKwTerm cc ptext := by
  unfold kwScore claimKwTerm
  rw [foldl_add_if]
  omega

theorem scorePhoto_eq_claimFixed (names : List (List Char)) (chTitle chText : List Char)
    (p : Photo) : scorePhoto names chTitle chText p = claimScoreFixed names chTitle chText p := by
  simp [scorePhoto, claimScoreFixed, yearScore_eq_fixed, nameScore_eq_claim, kwScore_eq_claim]


theorem insDesc_perm (x : Nat × Photo) : ∀ l, List.Perm (insDesc x l) (x :: l)
  | [] => List.Perm.refl _
  | y :: ys => by
    unfold insDesc
    by_cases h : y.1 ≤ x.1
    · rw [if_pos h]
    · rw [if_neg h]
      exact ((insDesc_perm x ys).cons y).trans (List.Perm.swap x y ys)

theorem sortDesc_perm : ∀ l, List.Perm (sortDesc l) l
  | [] => List.Perm.refl _
  | x :: xs => (insDesc_perm x (sortDesc xs)).trans ((sortDesc_perm xs).cons x)

theorem insDesc_sorted (x : Nat × Photo) :
    ∀ l, l.Pairwise (fun a b => b.1 ≤ a.1) →
      (insDesc x l).Pairwise (fun a b => b.1 ≤ a.1)
  | [], _ => by simp [insDesc]
  | y :: ys, h => by
    unfold insDesc
    rcases List.pairwise_cons.mp h with ⟨hy, hys⟩
    by_cases hle : y.1 ≤ x.1
    · rw [if_pos hle]
      refine List.pairwise_cons.mpr ⟨?_, h⟩
      intro z hz
      rcases List.mem_cons.mp hz with hz | hz
      · subst hz; exact hle
      · exact le_trans (hy _ hz) hle
    · rw [if_neg hle]
      refine List.pairwise_cons.mpr ⟨?_, insDesc_sorted x ys hys⟩
      intro z hz
      rcases List.mem_cons.mp ((insDesc_perm x ys).mem_iff.mp hz) with hz | hz
      · subst hz; omega
      · exact hy _ hz

theorem sortDesc_sorted : ∀ l, (sortDesc l).Pairwise (fun a b : Nat × Photo => b.1 ≤ a.1)
  | [] => by simp [sortDesc]
  | x :: xs => insDesc_sorted x (sortDesc xs) (sortDesc_sorted xs)

theorem insDesc_filter (s : Nat) (x : Nat × Photo) (l : List (Nat × Photo)) :
    (insDesc x l).filter (fun p => p.1 == s)
      = if x.1 = s then x :: l.filter (fun p => p.1 == s)
        else l.filter (fun p => p.1 == s) := by
  induction l with
  | nil =>
    by_cases h : x.1 = s
    · simp [insDesc, List.filter_cons, h]
    · simp [insDesc, List.filter_cons, h]
  | cons y ys ih =>
    unfold insDesc
    by_cases hle : y.1 ≤ x.1
    · rw [if_pos hle]
      by_cases hx : x.1 = s
      · simp [List.filter_cons, hx]
      · simp [List.filter_cons, hx]
    · rw [if_neg hle, List.filter_cons, List.filter_cons, ih]
      by_cases hx : x.1 = s
      · have hyne : ¬ y.1 = s := by omega
        simp [hx, hyne]
      · by_cases hys : y.1 = s
        · simp [hx, hys]
        · simp [hx, hys]

theorem sortDesc_filter (s : Nat) :
    ∀ l, (sortDesc l).filter (fun p => p.1 == s) = l.filter (fun p => p.1 == s)
  | [] => rfl
  | x :: xs => by
    unfold sortDesc
    rw [insDesc_filter s x (sortDesc xs), sortDesc_filter s xs, List.filter_cons]
    by_cases hx : x.1 = s
    · simp [hx]
    · simp [hx]

theorem scoredList_mem {names : List (List Char)} {chTitle chText : List Char}
    {photos : List Photo} {used : Finset String} {z : Nat × Photo}
    (h : z ∈ scoredList names chTitle chText photos used) :
    z.2 ∈ photos ∧ z.2.filename ∉ used ∧
      z.1 = scorePhoto names chTitle chText z.2 ∧ 0 < z.1 := by
  unfold scoredList at h
  rcases List.mem_filterMap.mp h with ⟨p, hp, heq⟩
  by_cases hu : p.filename ∈ used
  · rw [if_pos hu] at heq
    cases heq
  · rw [if_neg hu] at heq
    by_cases hs : 0 < scorePhoto names chTitle chText p
    · rw [if_pos hs] at heq
      obtain rfl : (scorePhoto names chTitle chText p, p) = z := Option.some.inj heq
      exact ⟨hp, hu, rfl, hs⟩
    · rw [if_neg hs] at heq
      cases heq

theorem scoredList_mem_of {names : List (List Char)} {chTitle chText : List Char}
    {photos : List Photo} {used : Finset String} {p : Photo}
    (hp : p ∈ photos) (hu : p.filename ∉ used)
    (hs : 0 < scorePhoto names chTitle chText p) :
    (scorePhoto names chTitle chText p, p) ∈ scoredList names chTitle chText photos used := by
  unfold scoredList
  exact List.mem_filterMap.mpr ⟨p, hp, by rw [if_neg hu, if_pos hs]⟩

theorem scoredList_map_sublist (names : List (List Char)) (chTitle chText : List Char)
    (used : Finset String) :
    ∀ photos : List Photo,
      List.Sublist ((scoredList names chTitle chText photos used).map (·.2)) photos
  | [] => by simp [scoredList]
  | p :: ps => by
    unfold scoredList
    rw [List.filterMap_cons]
    by_cases hu : p.filename ∈ used
    · rw [if_pos hu]
      exact (scoredList_map_sublist names chTitle chText used ps).cons p
    · rw [if_neg hu]
      by_cases hs : 0 < scorePhoto names chTitle chText p
      · rw [if_pos hs, List.map_cons]
        exact (scoredList_map_sublist names chTitle chText used ps).cons₂ p
      · rw [if_neg hs]
        exact (scoredList_map_sublist names chTitle chText used ps).cons p

theorem selectedPhotos_mem {names : List (List Char)} {chTitle chText : List Char}
    {photos : List Photo} {used : Finset String} {maxPhotos : Nat} {p : Photo}
    (h : p ∈ selectedPhotos names chTitle chText photos used maxPhotos) :
    p ∈ photos ∧ p.filename ∉ used ∧ 0 < scorePhoto names chTitle chText p := by
  unfold selectedPhotos at h
  rcases List.mem_map.mp h with ⟨z, hz, rfl⟩
  have hz' : z ∈ sortDesc (scoredList names chTitle chText photos used) :=
    List.mem_of_mem_take hz
  have hz'' := (sortDesc_perm _).mem_iff.mp hz'
  rcases scoredList_mem hz'' with ⟨h1, h2, h3, h4⟩
  exact ⟨h1, h2, by rw [← h3]; exact h4⟩

theorem foldl_insert_filename (l : List Photo) :
    ∀ s : Finset String,
      l.foldl (fun s p => insert p.filename s) s = s ∪ (l.map (·.filename)).toFinset := by
  induction l with
  | nil => intro s; simp
  | cons a l ih =>
    intro s
    rw [List.foldl_cons, ih, List.map_cons, List.toFinset_cons, Finset.union_insert,
      Finset.insert_union]

theorem matchPhotos_fst (names : List (List Char)) (chTitle chText : List Char)
    (photos : List Photo) (used : Finset String) (maxPhotos : Nat) :
    (matchPhotos names chTitle chText photos used maxPhotos).1
      = selectedPhotos names chTitle chText photos used maxPhotos := rfl

theorem matchPhotos_snd (names : List (List Char)) (chTitle chText : List Char)
    (photos : List Photo) (used : Finset String) (maxPhotos : Nat) :
    (matchPhotos names chTitle chText photos used maxPhotos).2
      = used ∪ ((selectedPhotos names chTitle chText photos used maxPhotos).map
          (·.filename)).toFinset := by
  unfold matchPhotos
  exact foldl_insert_filename _ used

theorem matchPhotos_subset (names : List (List Char)) (chTitle chText : List Char)
    (photos : List Photo) (used : Finset String) (maxPhotos : Nat) :
    used ⊆ (matchPhotos names chTitle chText photos used maxPhotos).2 := by
  rw [matchPhotos_snd]
  exact Finset.subset_union_left

theorem matchPhotos_mem_snd {names : List (List Char)} {chTitle chText : List Char}
    {photos : List Photo} {used : Finset String} {maxPhotos : Nat} {f : String} :
    f ∈ (matchPhotos names chTitle chText photos used maxPhotos).2
      ↔ f ∈ used ∨
        f ∈ (selectedPhotos names chTitle chText photos used maxPhotos).map (·.filename) := by
  rw [matchPhotos_snd]
  simp

theorem selectedPhotos_nodup {names : List (List Char)} {chTitle chText : List Char}
    {photos : List Photo} {used : Finset String} {maxPhotos : Nat}
    (hnodup : (photos.map (·.filename)).Nodup) :
    ((selectedPhotos names chTitle chText photos used maxPhotos).map (·.filename)).Nodup := by
  have h1 : ((scoredList names chTitle chText photos used).map (·.2)).map (·.filename)
      |>.Nodup :=
    ((scoredList_map_sublist names chTitle chText used photos).map (·.filename)).nodup hnodup
  have h2 : List.Perm
      (((sortDesc (scoredList names chTitle chText photos used)).map (·.2)).map (·.filename))
      (((scoredList names chTitle chText photos used).map (·.2)).map (·.filename)) :=
    ((sortDesc_perm _).map _).map _
  have h3 := h2.nodup_iff.mpr h1
  unfold selectedPhotos
  rw [List.map_take, List.map_take]
  exact (List.take_sublist _ _).nodup h3

theorem matchPhotos_card {names : List (List Char)} {chTitle chText : List Char}
    {photos : List Photo} {used : Finset String} {maxPhotos : Nat}
    (hnodup : (photos.map (·.filename)).Nodup) :
    (matchPhotos names chTitle chText photos used maxPhotos).2.card
      = used.card + (matchPhotos names chTitle chText photos used maxPhotos).1.length := by
  rw [matchPhotos_snd, matchPhotos_fst]
  have hsel := @selectedPhotos_nodup names chTitle chText photos used maxPhotos hnodup
  have hdisj : Disjoint used
      ((selectedPhotos names chTitle chText photos used maxPhotos).map (·.filename)).toFinset := by
    rw [Finset.disjoint_right]
    intro f hf hfu
    rcases List.mem_map.mp (List.mem_toFinset.mp hf) with ⟨p, hp, rfl⟩
    exact (selectedPhotos_mem hp).2.1 hfu
  rw [Finset.card_union_of_disjoint hdisj, List.toFinset_card_of_nodup hsel,
    List.length_map]

theorem chained_append {u w v : Finset String} :
    ∀ {cs1 cs2 : List CallRec}, chained u cs1 w → chained w cs2 v →
      chained u (cs1 ++ cs2) v
  | [], cs2, h1, h2 => by
    unfold chained at h1
    subst h1
    exact h2
  | c :: cs1, cs2, h1, h2 => ⟨h1.1, chained_append h1.2 h2⟩

theorem chained_before_superset {v : Finset String} {cs : List CallRec} :
    ∀ {u : Finset String}, chained u cs v →
      (∀ c ∈ cs, c.before ⊆ c.after) →
      ∀ (j : Nat) (cj : CallRec), cs[j]? = some cj → u ⊆ cj.before := by
  induction cs with
  | nil =>
    intro u _ _ j cj hj
    simp at hj
  | cons c cs ih =>
    intro u h hm j cj hj
    cases j with
    | zero =>
      obtain rfl : c = cj := by simpa using hj
      exact h.1 ▸ Finset.Subset.refl _
    | succ j =>
      have h1 : c.after ⊆ cj.before :=
        ih h.2 (fun c' hc' => hm c' (List.mem_cons_of_mem c hc')) j cj (by simpa using hj)
      exact (h.1 ▸ hm c (List.mem_cons_self c cs)).trans h1

theorem chained_after_subset_before {v : Finset String} {cs : List CallRec} :
    ∀ {u : Finset String}, chained u cs v →
      (∀ c ∈ cs, c.before ⊆ c.after) →
      ∀ (i j : Nat) (ci cj : CallRec), i < j → cs[i]? = some ci → cs[j]? = some cj →
        ci.after ⊆ cj.before := by
  induction cs with
  | nil =>
    intro u _ _ i j ci cj _ hi _
    simp at hi
  | cons c cs ih =>
    intro u h hm i j ci cj hij hi hj
    cases j with
    | zero => omega
    | succ j =>
      have hm' : ∀ c' ∈ cs, c'.before ⊆ c'.after :=
        fun c' hc' => hm c' (List.mem_cons_of_mem c hc')
      cases i with
      | zero =>
        obtain rfl : c = ci := by simpa using hi
        exact chained_before_superset h.2 hm' j cj (by simpa using hj)
      | succ i =>
        exact ih h.2 hm' i j ci cj (by omega) (by simpa using hi) (by simpa using hj)

theorem chapterFilenames_cons (b : Block) (bs : List Block) :
    chapterFilenames (b :: bs) = blockFilenames b ++ chapterFilenames bs := rfl

theorem chapterFilenames_append (a : List Block) (b : List Block) :
    chapterFilenames (a ++ b) = chapterFilenames a ++ chapterFilenames b := by
  induction a with
  | nil => rfl
  | cons x xs ih =>
    rw [List.cons_append, chapterFilenames_cons, chapterFilenames_cons, ih,
      List.append_assoc]

theorem chapterFilenames_map_para (l : List (List Char)) :
    chapterFilenames (l.map Block.para) = [] := by
  induction l with
  | nil => rfl
  | cons x xs ih => rw [List.map_cons, chapterFilenames_cons, ih]; rfl

theorem facingBody_filenames (pq : Option (List Char)) (hw : Nat) :
    ∀ (i : Nat) (ps : List (List Char)), chapterFilenames (facingBody pq hw i ps) = []
  | _, [] => rfl
  | i, p :: ps => by
    unfold facingBody
    rw [chapterFilenames_cons, chapterFilenames_append, facingBody_filenames pq hw (i + 1) ps]
    by_cases h : i = hw
    · cases pq <;> simp [h, chapterFilenames, blockFilenames, chapterFilenames_cons]
    · simp [h, chapterFilenames, blockFilenames]

theorem filterMapResolve_sublist (resolve : String → Option String) :
    ∀ ps : List Photo,
      List.Sublist
        (ps.filterMap fun p => if (resolve p.filename).isSome then some p.filename else none)
        (ps.map (·.filename))
  | [] => by simp
  | p :: ps => by
    rw [List.filterMap_cons, List.map_cons]
    by_cases h : (resolve p.filename).isSome
    · rw [if_pos h]
      exact (filterMapResolve_sublist resolve ps).cons₂ _
    · rw [if_neg h]
      exact (filterMapResolve_sublist resolve ps).cons _

theorem photoLayout_filenames_sublist (resolve : String → Option String) (ps : List Photo) :
    List.Sublist (chapterFilenames (photoLayout resolve ps)) (ps.map (·.filename)) := by
  unfold photoLayout
  by_cases h : ps.isEmpty
  · rw [if_pos h]
    exact List.nil_sublist _
  · rw [if_neg h]
    rw [show chapterFilenames [Block.photoGrid
        (ps.filterMap fun p => if (resolve p.filename).isSome then some p.filename else none)]
      = ps.filterMap fun p => if (resolve p.filename).isSome then some p.filename else none by
        rw [chapterFilenames_cons]; simp [chapterFilenames, blockFilenames]]
    exact filterMapResolve_sublist resolve ps

theorem chapterBody_filenames_sublist (resolve : String → Option String)
    (pq : Option (List Char)) (paras : List (List Char)) (textLen : Nat)
    (photos : List Photo) :
    List.Sublist (chapterFilenames (chapterBody resolve pq paras textLen photos))
      (photos.map (·.filename)) := by
  unfold chapterBody
  split
  · -- facing
    split
    · exact List.nil_sublist _
    · split
      · rename_i p0 tail _ heq
        rw [chapterFilenames_cons, facingBody_filenames, List.map_cons]
        simp only [blockFilenames, List.append_nil]
        exact (List.nil_sublist _).cons₂ _
      · exact List.nil_sublist _
  · -- grid
    rw [chapterFilenames_append, chapterFilenames_append, chapterFilenames_append]
    have h1 : chapterFilenames (match paras with | [] => [] | p :: _ => [Block.para p]) = [] := by
      cases paras <;> rfl
    have h2 : chapterFilenames (match pq with | some q => [Block.quote q] | none => []) = [] := by
      cases pq <;> rfl
    have h4 : chapterFilenames
        (if 1 < paras.length then paras.tail.map Block.para else []) = [] := by
      by_cases h : 1 < paras.length
      · rw [if_pos h, chapterFilenames_map_para]
      · rw [if_neg h]; rfl
    rw [h1, h2, h4, List.nil_append, List.append_nil]
    exact (photoLayout_filenames_sublist resolve (photos.take 3)).trans
      ((List.take_sublist 3 photos).map _)
  · -- embedded
    rw [chapterFilenames_append, chapterFilenames_append, chapterFilenames_map_para]
    have h1 : chapterFilenames (match paras with | [] => [] | p :: _ => [Block.para p]) = [] := by
      cases paras <;> rfl
    rw [h1, List.nil_append, List.append_nil]
    split
    · exact List.nil_sublist _
    · split
      · rename_i p0 tail _ heq
        rw [List.map_cons]
        simp only [chapterFilenames, blockFilenames, List.foldr_cons, List.foldr_nil,
          List.append_nil]
        exact (List.nil_sublist _).cons₂ _
      · exact List.nil_sublist _
  · -- simple
    rw [chapterFilenames_append, chapterFilenames_append, chapterFilenames_map_para]
    have h2 : chapterFilenames (match pq with | some q => [Block.quote q] | none => []) = [] := by
      cases pq <;> rfl
    rw [h2, List.nil_append, List.nil_append]
    by_cases h : photos.isEmpty
    · rw [if_pos h]; exact List.nil_sublist _
    · rw [if_neg h]; exact photoLayout_filenames_sublist resolve photos

theorem createChapterHtml_filenames_sublist (resolve : String → Option String)
    (names : List (List Char)) (ch : Chapter) (photos : List Photo) :
    List.Sublist (chapterFilenames (createChapterHtml resolve names ch photos))
      (photos.map (·.filename)) := by
  unfold createChapterHtml
  exact chapterBody_filenames_sublist resolve _ _ _ photos

theorem tocLoop_nil (names : List (List Char)) (available : List Photo)
    (resolve : String → Option String) (used : Finset String)
    (thumbs : List (List Char × String)) :
    tocLoop names available resolve used thumbs [] = (used, thumbs, []) := rfl

theorem tocLoop_cons (names : List (List Char)) (available : List Photo)
    (resolve : String → Option String) (used : Finset String)
    (thumbs : List (List Char × String)) (ch : Chapter) (rest : List Chapter) :
    tocLoop names available resolve used thumbs (ch :: rest)
      = ((tocLoop names available resolve
            (matchPhotos names ch.title ch.narrative available used 1).2
            (tocThumbUpdate resolve ch.title
              (matchPhotos names ch.title ch.narrative available used 1).1 thumbs) rest).1,
         (tocLoop names available resolve
            (matchPhotos names ch.title ch.narrative available used 1).2
            (tocThumbUpdate resolve ch.title
              (matchPhotos names ch.title ch.narrative available used 1).1 thumbs) rest).2.1,
         ⟨used, (matchPhotos names ch.title ch.narrative available used 1).1,
            (matchPhotos names ch.title ch.narrative available used 1).2⟩ ::
           (tocLoop names available resolve
              (matchPhotos names ch.title ch.narrative available used 1).2
              (tocThumbUpdate resolve ch.title
                (matchPhotos names ch.title ch.narrative available used 1).1 thumbs) rest).2.2) :=
  rfl

theorem chapLoop_nil (names : List (List Char)) (available : List Photo)
    (resolve : String → Option String) (used : Finset String) :
    chapLoop names available resolve used [] = (used, [], []) := rfl

theorem chapLoop_cons (names : List (List Char)) (available : List Photo)
    (resolve : String → Option String) (used : Finset String)
    (ch : Chapter) (rest : List Chapter) :
    chapLoop names available resolve used (ch :: rest)
      = ((chapLoop names available resolve
            (matchPhotos names ch.title ch.narrative available used 3).2 rest).1,
         createChapterHtml resolve names ch
             (matchPhotos names ch.title ch.narrative available used 3).1 ::
           (chapLoop names available resolve
              (matchPhotos names ch.title ch.narrative available used 3).2 rest).2.1,
         ⟨used, (matchPhotos names ch.title ch.narrative available used 3).1,
            (matchPhotos names ch.title ch.narrative available used 3).2⟩ ::
           (chapLoop names available resolve
              (matchPhotos names ch.title ch.narrative available used 3).2 rest).2.2) :=
  rfl

theorem tocThumbUpdate_cases (resolve : String → Option String) (t : List Char)
    (sel : List Photo) (thumbs : List (List Char × String)) :
    tocThumbUpdate resolve t sel thumbs = thumbs ∨
      ∃ p ∈ sel, tocThumbUpdate resolve t sel thumbs = (t, p.filename) :: thumbs := by
  rcases sel with _ | ⟨p, ps⟩
  · exact Or.inl rfl
  · rcases hr : resolve p.filename with _ | v
    · exact Or.inl (by unfold tocThumbUpdate; dsimp only; rw [hr])
    · exact Or.inr ⟨p, List.mem_cons_self _ _,
        by unfold tocThumbUpdate; dsimp only; rw [hr]⟩

theorem tocLoop_subset (names : List (List Char)) (available : List Photo)
    (resolve : String → Option String) :
    ∀ (chs : List Chapter) (used : Finset String) (thumbs : List (List Char × String)),
      used ⊆ (tocLoop names available resolve used thumbs chs).1 := by
  intro chs
  induction chs with
  | nil =>
    intro used thumbs
    exact Finset.Subset.refl _
  | cons ch rest ih =>
    intro used thumbs
    exact (matchPhotos_subset names ch.title ch.narrative available used 1).trans (ih _ _)

theorem tocLoop_chained (names : List (List Char)) (available : List Photo)
    (resolve : String → Option String) :
    ∀ (chs : List Chapter) (used : Finset String) (thumbs : List (List Char × String)),
      chained used (tocLoop names available resolve used thumbs chs).2.2
        (tocLoop names available resolve used thumbs chs).1 := by
  intro chs
  induction chs with
  | nil => intro used thumbs; exact rfl
  | cons ch rest ih => intro used thumbs; exact ⟨rfl, ih _ _⟩

theorem tocLoop_calls (names : List (List Char)) (available : List Photo)
    (resolve : String → Option String) :
    ∀ (chs : List Chapter) (used : Finset String) (thumbs : List (List Char × String)),
      ∀ c ∈ (tocLoop names available resolve used thumbs chs).2.2,
        (∀ p ∈ c.returned, p.filename ∉ c.before) ∧
          c.after = c.before ∪ (c.returned.map (·.filename)).toFinset ∧
          c.before ⊆ c.after ∧
          ((available.map (·.filename)).Nodup →
            c.after.card = c.before.card + c.returned.length) := by
  intro chs
  induction chs with
  | nil =>
    intro used thumbs c hc
    rw [tocLoop_nil] at hc
    simp at hc
  | cons ch rest ih =>
    intro used thumbs c hc
    rw [tocLoop_cons] at hc
    rcases List.mem_cons.mp hc with rfl | hc
    · refine ⟨?_, ?_, ?_, ?_⟩
      · intro p hp
        exact (selectedPhotos_mem hp).2.1
      · exact matchPhotos_snd names ch.title ch.narrative available used 1
      · exact matchPhotos_subset names ch.title ch.narrative available used 1
      · intro hnd
        exact matchPhotos_card hnd
    · exact ih _ _ c hc

theorem tocLoop_thumbs (names : List (List Char)) (available : List Photo)
    (resolve : String → Option String) :
    ∀ (chs : List Chapter) (used : Finset String) (thumbs : List (List Char × String)),
      ∃ new, (tocLoop names available resolve used thumbs chs).2.1 = new ++ thumbs ∧
        (∀ e ∈ new, e.2 ∉ used ∧ e.2 ∈ (tocLoop names available resolve used thumbs chs).1) ∧
        (new.map (·.2)).Nodup := by
  intro chs
  induction chs with
  | nil =>
    intro used thumbs
    exact ⟨[], rfl, by simp, by simp⟩
  | cons ch rest ih =>
    intro used thumbs
    rcases ih (matchPhotos names ch.title ch.narrative available used 1).2
        (tocThumbUpdate resolve ch.title
          (matchPhotos names ch.title ch.narrative available used 1).1 thumbs) with
      ⟨new, h1, h2, h3⟩
    rcases tocThumbUpdate_cases resolve ch.title
        (matchPhotos names ch.title ch.narrative available used 1).1 thumbs with
      hup | ⟨p, hp, hup⟩
    · refine ⟨new, ?_, ?_, h3⟩
      · show (tocLoop names available resolve
            (matchPhotos names ch.title ch.narrative available used 1).2
            (tocThumbUpdate resolve ch.title
              (matchPhotos names ch.title ch.narrative available used 1).1 thumbs) rest).2.1
          = new ++ thumbs
        rw [h1, hup]
      · intro e he
        obtain ⟨he1, he2⟩ := h2 e he
        exact ⟨fun hc =>
          he1 (matchPhotos_subset names ch.title ch.narrative available used 1 hc), he2⟩
    · refine ⟨new ++ [(ch.title, p.filename)], ?_, ?_, ?_⟩
      · show (tocLoop names available resolve
            (matchPhotos names ch.title ch.narrative available used 1).2
            (tocThumbUpdate resolve ch.title
              (matchPhotos names ch.title ch.narrative available used 1).1 thumbs) rest).2.1
          = (new ++ [(ch.title, p.filename)]) ++ thumbs
        rw [h1, hup, List.append_assoc, List.singleton_append]
      · intro e he
        rcases List.mem_append.mp he with he | he
        · obtain ⟨he1, he2⟩ := h2 e he
          exact ⟨fun hc =>
            he1 (matchPhotos_subset names ch.title ch.narrative available used 1 hc), he2⟩
        · obtain rfl : e = (ch.title, p.filename) := by simpa using he
          refine ⟨(selectedPhotos_mem hp).2.1, ?_⟩
        
          have hin : p.filename ∈ (matchPhotos names ch.title ch.narrative available used 1).2 :=
            matchPhotos_mem_snd.mpr (Or.inr (List.mem_map_of_mem _ hp))
          exact tocLoop_subset names available resolve rest _ _ hin
      · rw [List.map_append, List.nodup_append]
        refine ⟨h3, by simp, ?_⟩
        intro a ha hb
        rcases List.mem_map.mp ha with ⟨e, he, rfl⟩
        have hb' : e.2 = p.filename := by simpa using hb
        have he1 := (h2 e he).1
        have hin : p.filename ∈ (matchPhotos names ch.title ch.narrative available used 1).2 :=
          matchPhotos_mem_snd.mpr (Or.inr (List.mem_map_of_mem _ hp))
        exact he1 (by rw [hb']; exact hin)

theorem chapLoop_subset (names : List (List Char)) (available : List Photo)
    (resolve : String → Option String) :
    ∀ (chs : List Chapter) (used : Finset String),
      used ⊆ (chapLoop names available resolve used chs).1 := by
  intro chs
  induction chs with
  | nil =>
    intro used
    exact Finset.Subset.refl _
  | cons ch rest ih =>
    intro used
    exact (matchPhotos_subset names ch.title ch.narrative available used 3).trans (ih _)

theorem chapLoop_chained (names : List (List Char)) (available : List Photo)
    (resolve : String → Option String) :
    ∀ (chs : List Chapter) (used : Finset String),
      chained used (chapLoop names available resolve used chs).2.2
        (chapLoop names available resolve used chs).1 := by
  intro chs
  induction chs with
  | nil => intro used; exact rfl
  | cons ch rest ih => intro used; exact ⟨rfl, ih _⟩

theorem chapLoop_calls (names : List (List Char)) (available : List Photo)
    (resolve : String → Option String) :
    ∀ (chs : List Chapter) (used : Finset String),
      ∀ c ∈ (chapLoop names available resolve used chs).2.2,
        (∀ p ∈ c.returned, p.filename ∉ c.before) ∧
          c.after = c.before ∪ (c.returned.map (·.filename)).toFinset ∧
          c.before ⊆ c.after ∧
          ((available.map (·.filename)).Nodup →
            c.after.card = c.before.card + c.returned.length) := by
  intro chs
  induction chs with
  | nil =>
    intro used c hc
    rw [chapLoop_nil] at hc
    simp at hc
  | cons ch rest ih =>
    intro used c hc
    rw [chapLoop_cons] at hc
    rcases List.mem_cons.mp hc with rfl | hc
    · refine ⟨?_, ?_, ?_, ?_⟩
      · intro p hp
        exact (selectedPhotos_mem hp).2.1
      · exact matchPhotos_snd names ch.title ch.narrative available used 3
      · exact matchPhotos_subset names ch.title ch.narrative available used 3
      · intro hnd
        exact matchPhotos_card hnd
    · exact ih _ c hc

theorem chapLoop_blocks (names : List (List Char)) (available : List Photo)
    (resolve : String → Option String) :
    ∀ (chs : List Chapter) (used : Finset String),
      ∀ bs ∈ (chapLoop names available resolve used chs).2.1,
        ∀ f ∈ chapterFilenames bs,
          f ∉ used ∧ f ∈ (chapLoop names available resolve used chs).1 := by
  intro chs
  induction chs with
  | nil =>
    intro used bs hbs
    rw [chapLoop_nil] at hbs
    simp at hbs
  | cons ch rest ih =>
    intro used bs hbs f hf
    rw [chapLoop_cons] at hbs
    rcases List.mem_cons.mp hbs with rfl | hbs
    · have hf' : f ∈ (matchPhotos names ch.title ch.narrative available used 3).1.map
          (·.filename) :=
        (createChapterHtml_filenames_sublist resolve names ch _).subset hf
      rcases List.mem_map.mp hf' with ⟨p, hp, rfl⟩
      refine ⟨(selectedPhotos_mem hp).2.1, ?_⟩
      have hin : p.filename ∈ (matchPhotos names ch.title ch.narrative available used 3).2 :=
        matchPhotos_mem_snd.mpr (Or.inr (List.mem_map_of_mem _ hp))
      exact chapLoop_subset names available resolve rest _ hin
    · obtain ⟨h1, h2⟩ := ih _ bs hbs f hf
      exact ⟨fun hc =>
        h1 (matchPhotos_subset names ch.title ch.narrative available used 3 hc), h2⟩

theorem chapLoop_pairwise (names : List (List Char)) (available : List Photo)
    (resolve : String → Option String) :
    ∀ (chs : List Chapter) (used : Finset String),
      List.Pairwise (fun a b => ∀ f ∈ chapterFilenames a, f ∉ chapterFilenames b)
        (chapLoop names available resolve used chs).2.1 := by
  intro chs
  induction chs with
  | nil =>
    intro used
    rw [chapLoop_nil]
    exact List.Pairwise.nil
  | cons ch rest ih =>
    intro used
    rw [chapLoop_cons]
    refine List.pairwise_cons.mpr ⟨?_, ih _⟩
    intro bs hbs f hf hcontra
    have hf' : f ∈ (matchPhotos names ch.title ch.narrative available used 3).1.map
        (·.filename) :=
      (createChapterHtml_filenames_sublist resolve names ch _).subset hf
    rcases List.mem_map.mp hf' with ⟨p, hp, rfl⟩
    have hin : p.filename ∈ (matchPhotos names ch.title ch.narrative available used 3).2 :=
      matchPhotos_mem_snd.mpr (Or.inr (List.mem_map_of_mem _ hp))
    exact (chapLoop_blocks names available resolve rest _ bs hbs _ hcontra).1 hin

theorem chapLoop_blocks_nodup (names : List (List Char)) (available : List Photo)
    (resolve : String → Option String)
    (hnodup : (available.map (·.filename)).Nodup) :
    ∀ (chs : List Chapter) (used : Finset String),
      ∀ bs ∈ (chapLoop names available resolve used chs).2.1,
        (chapterFilenames bs).Nodup := by
  intro chs
  induction chs with
  | nil =>
    intro used bs hbs
    rw [chapLoop_nil] at hbs
    simp at hbs
  | cons ch rest ih =>
    intro used bs hbs
    rw [chapLoop_cons] at hbs
    rcases List.mem_cons.mp hbs with rfl | hbs
    · exact (createChapterHtml_filenames_sublist resolve names ch _).nodup
        (selectedPhotos_nodup hnodup)
    · exact ih _ bs hbs

theorem coverAuto_cases (resolve : String → Option String) (photos : List Photo)
    (used : Finset String) :
    coverAuto resolve photos used = (none, used) ∨
      ∃ f, coverAuto resolve photos used = (some f, insert f used) := by
  unfold coverAuto
  cases hscan : coverScan resolve photos with
  | some p => exact Or.inr ⟨p.filename, rfl⟩
  | none =>
    cases photos with
    | nil => exact Or.inl rfl
    | cons p0 ps =>
      dsimp only
      cases hr : resolve p0.filename with
      | none => exact Or.inl rfl
      | some _ => exact Or.inr ⟨p0.filename, rfl⟩

theorem coverStep_mem {resolve : String → Option String} {available : List Photo} {f : String}
    (h : (coverStep resolve available none).1 = some f) :
    f ∈ (coverStep resolve available none).2 := by
  cases available with
  | nil => simp [coverStep] at h
  | cons p0 ps =>
    have h' : (coverAuto resolve (p0 :: ps) ∅).1 = some f := h
    show f ∈ (coverAuto resolve (p0 :: ps) ∅).2
    rcases coverAuto_cases resolve (p0 :: ps) ∅ with hc | ⟨g, hc⟩
    · rw [hc] at h'
      exact absurd h' (by simp)
    · rw [hc] at h' ⊢
      obtain rfl : g = f := by simpa using h'
      exact Finset.mem_insert_self _ _

theorem lookupThumb_mem {m : List (List Char × String)} {k : List Char} {v : String}
    (h : lookupThumb m k = some v) : v ∈ m.map (·.2) := by
  unfold lookupThumb at h
  rcases Option.map_eq_some'.mp h with ⟨e, he, rfl⟩
  exact List.mem_map_of_mem _ (List.mem_of_find?_eq_some he)

theorem mem_entries_thumbs {chapters : List Chapter} {thumbs : List (List Char × String)}
    {x : String}
    (h : x ∈ (chapters.map fun ch => (ch.title, lookupThumb thumbs ch.title)).filterMap (·.2)) :
    x ∈ thumbs.map (·.2) := by
  rcases List.mem_filterMap.mp h with ⟨e, he, hsnd⟩
  rcases List.mem_map.mp he with ⟨ch, _, rfl⟩
  exact lookupThumb_mem hsnd

theorem mem_foldr_chapterFilenames {bss : List (List Block)} {f : String} :
    f ∈ bss.foldr (fun bs acc => chapterFilenames bs ++ acc) []
      ↔ ∃ bs ∈ bss, f ∈ chapterFilenames bs := by
  induction bss with
  | nil => simp
  | cons bs bss ih =>
    rw [List.foldr_cons]
    rw [List.mem_append, ih]
    simp
theorem splitTerm_no_term : ∀ (cs : List Char), ∀ s ∈ splitTerm cs, ∀ c ∈ s, ¬ isTermChar c
  | [], s, hs, c, hc => by
    simp [splitTerm] at hs
    subst hs
    simp at hc
  | ch :: rest, s, hs, c, hc => by
    unfold splitTerm at hs
    by_cases h : isTermChar ch
    · rw [if_pos h] at hs
      cases rest with
      | nil =>
        dsimp only at hs
        rcases List.mem_cons.mp hs with rfl | hs'
        · simp at hc
        · exact splitTerm_no_term [] s hs' c hc
      | cons c2 rest2 =>
        dsimp only at hs
        by_cases h2 : isTermChar c2
        · rw [if_pos h2] at hs
          exact splitTerm_no_term (c2 :: rest2) s hs c hc
        · rw [if_neg h2] at hs
          rcases List.mem_cons.mp hs with rfl | hs'
          · simp at hc
          · exact splitTerm_no_term (c2 :: rest2) s hs' c hc
    · rw [if_neg h] at hs
      cases hsp : splitTerm rest with
      | nil =>
        rw [hsp] at hs
        obtain rfl : s = ch :: [] := by simpa using hs
        rcases List.mem_cons.mp hc with rfl | hc'
        · exact h
        · simp at hc'
      | cons p ps =>
        rw [hsp] at hs
        rcases List.mem_cons.mp hs with rfl | hs'
        · rcases List.mem_cons.mp hc with rfl | hc'
          · exact h
          · exact splitTerm_no_term rest p (by rw [hsp]; exact List.mem_cons_self _ _) c hc'
        · exact splitTerm_no_term rest s (by rw [hsp]; exact List.mem_cons_of_mem _ hs') c hc

theorem pyStrip_subset {s : List Char} : ∀ c ∈ pyStrip s, c ∈ s := by
  intro c hc
  unfold pyStrip at hc
  rw [List.mem_reverse] at hc
  have hc2 := (List.dropWhile_sublist _).subset hc
  rw [List.mem_reverse] at hc2
  exact (List.dropWhile_sublist _).subset hc2

theorem quoteShape {text s : List Char} (hs : s ∈ splitTerm text) :
    (pyStrip s ++ ['.']).count '.' = 1 ∧ (pyStrip s ++ ['.']).count '!' = 0 ∧
      (pyStrip s ++ ['.']).count '?' = 0 ∧ (pyStrip s ++ ['.']).getLast? = some '.' := by
  have hnoterm : ∀ c ∈ pyStrip s, ¬ isTermChar c := fun c hc =>
    splitTerm_no_term text s hs c (pyStrip_subset c hc)
  have hdot : '.' ∉ pyStrip s := fun hc => hnoterm '.' hc (by simp [isTermChar])
  have hbang : '!' ∉ pyStrip s := fun hc => hnoterm '!' hc (by simp [isTermChar])
  have hq : '?' ∉ pyStrip s := fun hc => hnoterm '?' hc (by simp [isTermChar])
  refine ⟨?_, ?_, ?_, ?_⟩
  · rw [List.count_append, List.count_eq_zero.mpr hdot]
    simp
  · rw [List.count_append, List.count_eq_zero.mpr hbang]
    simp
  · rw [List.count_append, List.count_eq_zero.mpr hq]
    simp
  · exact List.getLast?_concat _

/-- C1 (amended): in every run where no explicit hero photo is supplied,
no photo filename appears in more than one of the cover, the
table-of-contents thumbnails, or any chapter's photo blocks, and any two
chapters' photo blocks are disjoint. -/
theorem C1_no_duplicate_amended (names : List (List Char)) (chapters : List Chapter)
    (catalogResult : Except Unit (List Photo)) (resolve : String → Option String) :
    (∀ f : String,
        ¬ ((generateBiography names chapters catalogResult none resolve).coverFilename = some f
            ∧ f ∈ tocDisplayed (generateBiography names chapters catalogResult none resolve))) ∧
    (∀ f : String,
        ¬ ((generateBiography names chapters catalogResult none resolve).coverFilename = some f
            ∧ f ∈ chaptersDisplayed (generateBiography names chapters catalogResult none resolve))) ∧
    (∀ f : String,
        ¬ (f ∈ tocDisplayed (generateBiography names chapters catalogResult none resolve)
            ∧ f ∈ chaptersDisplayed (generateBiography names chapters catalogResult none resolve))) ∧
    List.Pairwise (fun a b => ∀ f ∈ chapterFilenames a, f ∉ chapterFilenames b)
      (generateBiography names chapters catalogResult none resolve).chapterBlocks := by
  obtain ⟨new, hnew1, hnew2, hnew3⟩ :=
    tocLoop_thumbs names (availableOf catalogResult) resolve chapters
      (coverStep resolve (availableOf catalogResult) none).2 []
  have htoc : ∀ x : String,
      x ∈ tocDisplayed (generateBiography names chapters catalogResult none resolve) →
        x ∉ (coverStep resolve (availableOf catalogResult) none).2 ∧
          x ∈ (tocLoop names (availableOf catalogResult) resolve
                (coverStep resolve (availableOf catalogResult) none).2 [] chapters).1 := by
    intro x hx
    have hx0 : x ∈ (chapters.map fun ch =>
        (ch.title, lookupThumb (tocLoop names (availableOf catalogResult) resolve
          (coverStep resolve (availableOf catalogResult) none).2 [] chapters).2.1
          ch.title)).filterMap (·.2) := hx
    have hx' : x ∈ (tocLoop names (availableOf catalogResult) resolve
        (coverStep resolve (availableOf catalogResult) none).2 [] chapters).2.1.map (·.2) :=
      mem_entries_thumbs hx0
    rw [hnew1] at hx'
    rcases List.mem_map.mp hx' with ⟨e, he, rfl⟩
    have he' : e ∈ new := by simpa using he
    exact hnew2 e he'
  have hchap : ∀ f : String,
      f ∈ chaptersDisplayed (generateBiography names chapters catalogResult none resolve) →
        f ∉ (tocLoop names (availableOf catalogResult) resolve
              (coverStep resolve (availableOf catalogResult) none).2 [] chapters).1 := by
    intro f hf
    have hf0 : f ∈ ((chapLoop names (availableOf catalogResult) resolve
        (tocLoop names (availableOf catalogResult) resolve
          (coverStep resolve (availableOf catalogResult) none).2 [] chapters).1
        chapters).2.1).foldr (fun bs acc => chapterFilenames bs ++ acc) [] := hf
    rcases mem_foldr_chapterFilenames.mp hf0 with ⟨bs, hbs, hfbs⟩
    exact (chapLoop_blocks names (availableOf catalogResult) resolve chapters _ bs hbs f hfbs).1
  have hsub := tocLoop_subset names (availableOf catalogResult) resolve chapters
      (coverStep resolve (availableOf catalogResult) none).2 []
  refine ⟨?_, ?_, ?_, ?_⟩
  · rintro f ⟨hc, ht⟩
    exact (htoc f ht).1 (coverStep_mem hc)
  · rintro f ⟨hc, hch⟩
    exact hchap f hch (hsub (coverStep_mem hc))
  · rintro f ⟨ht, hch⟩
    exact hchap f hch (htoc f ht).2
  · exact chapLoop_pairwise names (availableOf catalogResult) resolve chapters _

/-- C2 (amended): once a filename has entered the used set (auto-selected
cover, TOC-thumbnail match, or chapter match), no later matcher call in
the run returns it; with a duplicate-free catalog (filename is the unique
key), each matcher call grows the used set by exactly the number of photos
it returned. -/
theorem C2_monotonic_exclusion_amended (names : List (List Char)) (chapters : List Chapter)
    (catalogResult : Except Unit (List Photo)) (hero : Option String)
    (resolve : String → Option String)
    (hnodup : ((availableOf catalogResult).map (·.filename)).Nodup) :
    (∀ c ∈ (generateBiography names chapters catalogResult hero resolve).calls,
        (∀ p ∈ c.returned, p.filename ∉ c.before) ∧
          c.after = c.before ∪ (c.returned.map (·.filename)).toFinset ∧
          c.after.card = c.before.card + c.returned.length) ∧
    (∀ (i j : Nat) (ci cj : CallRec), i < j →
        (generateBiography names chapters catalogResult hero resolve).calls[i]? = some ci →
        (generateBiography names chapters catalogResult hero resolve).calls[j]? = some cj →
        ∀ f ∈ ci.after, f ∉ cj.returned.map (·.filename)) ∧
    (hero = none →
      ∀ f : String,
        (generateBiography names chapters catalogResult hero resolve).coverFilename = some f →
        ∀ c ∈ (generateBiography names chapters catalogResult hero resolve).calls,
          f ∉ c.returned.map (·.filename)) := by
  have hmemcall : ∀ c ∈ (generateBiography names chapters catalogResult hero resolve).calls,
      (∀ p ∈ c.returned, p.filename ∉ c.before) ∧
        c.after = c.before ∪ (c.returned.map (·.filename)).toFinset ∧
        c.before ⊆ c.after ∧
        (((availableOf catalogResult).map (·.filename)).Nodup →
          c.after.card = c.before.card + c.returned.length) := by
    intro c hc
    have hc0 : c ∈ (tocLoop names (availableOf catalogResult) resolve
        (coverStep resolve (availableOf catalogResult) hero).2 [] chapters).2.2
          ++ (chapLoop names (availableOf catalogResult) resolve
            (tocLoop names (availableOf catalogResult) resolve
              (coverStep resolve (availableOf catalogResult) hero).2 [] chapters).1
            chapters).2.2 := hc
    rcases List.mem_append.mp hc0 with hc1 | hc1
    · exact tocLoop_calls names (availableOf catalogResult) resolve chapters _ _ c hc1
    · exact chapLoop_calls names (availableOf catalogResult) resolve chapters _ c hc1
  have hchain : chained (coverStep resolve (availableOf catalogResult) hero).2
      (generateBiography names chapters catalogResult hero resolve).calls
      (chapLoop names (availableOf catalogResult) resolve
        (tocLoop names (availableOf catalogResult) resolve
          (coverStep resolve (availableOf catalogResult) hero).2 [] chapters).1 chapters).1 :=
    chained_append
      (tocLoop_chained names (availableOf catalogResult) resolve chapters _ [])
      (chapLoop_chained names (availableOf catalogResult) resolve chapters _)
  have hmono : ∀ c ∈ (generateBiography names chapters catalogResult hero resolve).calls,
      c.before ⊆ c.after := fun c hc => (hmemcall c hc).2.2.1
  refine ⟨?_, ?_, ?_⟩
  · intro c hc
    obtain ⟨h1, h2, _, h4⟩ := hmemcall c hc
    exact ⟨h1, h2, h4 hnodup⟩
  · intro i j ci cj hij hi hj f hf hfj
    have hcj : cj ∈ (generateBiography names chapters catalogResult hero resolve).calls :=
      List.getElem?_mem hj
    have hsub : ci.after ⊆ cj.before :=
      chained_after_subset_before hchain hmono i j ci cj hij hi hj
    rcases List.mem_map.mp hfj with ⟨p, hp, rfl⟩
    exact (hmemcall cj hcj).1 p hp (hsub hf)
  · rintro rfl f hcov c hc hmemf
    have hf1 : f ∈ (coverStep resolve (availableOf catalogResult) none).2 :=
      coverStep_mem hcov
    rcases List.mem_iff_getElem?.mp hc with ⟨k, hk⟩
    have hsub : (coverStep resolve (availableOf catalogResult) none).2 ⊆ c.before :=
      chained_before_superset hchain hmono k c hk
    rcases List.mem_map.mp hmemf with ⟨p, hp, rfl⟩
    exact (hmemcall c hc).1 p hp (hsub hf1)


/-- C3 counterexample: the claim's score formula counts the year term for
any PRESENT pair of years, but the source guard is Python truthiness
(`if chapter_year and photo.get('year')`), so a chapter year of 0 (title
"0000") with a photo year of 0 scores 0 where the claim's formula gives
100. -/
theorem C3_counterexample :
    scorePhoto [] "0000".toList [] ⟨0, "x.jpg", [], [], some 0, []⟩
        ≠ claimScore [] "0000".toList [] ⟨0, "x.jpg", [], [], some 0, []⟩ ∧
      scorePhoto [] "0000".toList [] ⟨0, "x.jpg", [], [], some 0, []⟩ = 0 ∧
      claimScore [] "0000".toList [] ⟨0, "x.jpg", [], [], some 0, []⟩ = 100 := by
  refine ⟨?_, ?_, ?_⟩ <;> decide

/-- C3 (amended): for every chapter and candidate photo not in the used
set, the matcher's score equals the spec formula with the year term
counted only when both years are present AND nonzero; a photo of total
score 0 never appears in the matcher's result. -/
theorem C3_score_formula_amended (names : List (List Char)) (chTitle chText : List Char)
    (photos : List Photo) (used : Finset String) (maxPhotos : Nat) (p : Photo)
    (hp : p ∈ photos) (hu : p.filename ∉ used) :
    scorePhoto names chTitle chText p = claimScoreFixed names chTitle chText p ∧
      (scorePhoto names chTitle chText p = 0 →
        p ∉ (matchPhotos names chTitle chText photos used maxPhotos).1) := by
  refine ⟨scorePhoto_eq_claimFixed names chTitle chText p, ?_⟩
  intro h0 hmem
  have hpos := (selectedPhotos_mem hmem).2.2
  omega

/-- Witness for C3 at a concrete photo and chapter. -/
theorem C3_score_formula_amended_witness :
    (⟨0, "x.jpg", [], [], some 1990, []⟩ : Photo) ∈
        [(⟨0, "x.jpg", [], [], some 1990, []⟩ : Photo)] ∧
      "x.jpg" ∉ (∅ : Finset String) ∧
      scorePhoto [] "1990".toList [] ⟨0, "x.jpg", [], [], some 1990, []⟩
        = claimScoreFixed [] "1990".toList [] ⟨0, "x.jpg", [], [], some 1990, []⟩ :=
  ⟨by decide, by simp,
    (C3_score_formula_amended [] "1990".toList [] [⟨0, "x.jpg", [], [], some 1990, []⟩]
      ∅ 3 ⟨0, "x.jpg", [], [], some 1990, []⟩ (by decide) (by simp)).1⟩

/-- C4 (confirmed): the matcher's result is the positively-scored unused
candidates (in catalog-encounter order in `scoredList`), sorted descending
by score with ties kept in their original order (stability stated via
per-score filters), truncated to `maxPhotos`, and every returned filename
is in the returned used set. -/
theorem C4_matcher_order_and_marking (names : List (List Char)) (chTitle chText : List Char)
    (photos : List Photo) (used : Finset String) (maxPhotos : Nat) :
    (matchPhotos names chTitle chText photos used maxPhotos).1.length ≤ maxPhotos ∧
      (∃ L : List (Nat × Photo),
        List.Perm L (scoredList names chTitle chText photos used) ∧
          L.Pairwise (fun a b => b.1 ≤ a.1) ∧
          (∀ s : Nat, L.filter (fun z => z.1 == s)
            = (scoredList names chTitle chText photos used).filter (fun z => z.1 == s)) ∧
          (matchPhotos names chTitle chText photos used maxPhotos).1
            = (L.take maxPhotos).map (·.2)) ∧
      (∀ (s : Nat) (p : Photo), (s, p) ∈ scoredList names chTitle chText photos used ↔
        p ∈ photos ∧ p.filename ∉ used ∧ s = scorePhoto names chTitle chText p ∧ 0 < s) ∧
      List.Sublist ((scoredList names chTitle chText photos used).map (·.2)) photos ∧
      (∀ p ∈ (matchPhotos names chTitle chText photos used maxPhotos).1,
        p.filename ∈ (matchPhotos names chTitle chText photos used maxPhotos).2) := by
  refine ⟨?_, ?_, ?_, ?_, ?_⟩
  · show (((sortDesc (scoredList names chTitle chText photos used)).take maxPhotos).map
        (fun z => z.2)).length ≤ maxPhotos
    rw [List.length_map]
    exact List.length_take_le _ _
  · exact ⟨sortDesc (scoredList names chTitle chText photos used),
      sortDesc_perm _, sortDesc_sorted _, fun s => sortDesc_filter s _, rfl⟩
  · intro s p
    constructor
    · intro h
      have := scoredList_mem h
      exact ⟨this.1, this.2.1, this.2.2.1, by have := this.2.2.2; omega⟩
    · rintro ⟨hp, hu, rfl, hs⟩
      exact scoredList_mem_of hp hu hs
  · exact scoredList_map_sublist names chTitle chText used photos
  · intro p hp
    exact matchPhotos_mem_snd.mpr (Or.inr (List.mem_map_of_mem _ hp))

/-- Witness for C4 at a concrete matcher call. -/
theorem C4_matcher_order_and_marking_witness :
    (matchPhotos [] "1990".toList [] [⟨0, "x.jpg", [], [], some 1990, []⟩] ∅ 3).1.length ≤ 3 :=
  (C4_matcher_order_and_marking [] "1990".toList [] [⟨0, "x.jpg", [], [], some 1990, []⟩] ∅ 3).1

/-- C5 counterexample: the spec's expected pull quote keeps the `!`, but
the split on `[.!?]+` consumes the terminator, so the extractor does NOT
return `"I will always remember that summer!."` on the spec's own input. -/
theorem C5_counterexample :
    extractPullQuote "It was fine. I will always remember that summer! We laughed.".toList 150
      ≠ some "I will always remember that summer!.".toList := by decide

/-- C5 (amended): on the spec's input the extractor returns the second
sentence WITHOUT its exclamation mark, with a period appended. -/
theorem C5_pull_quote_amended :
    extractPullQuote "It was fine. I will always remember that summer! We laughed.".toList 150
      = some "I will always remember that summer.".toList := by decide


/-- C6 (confirmed): the layout cascade honours its strict thresholds: with
one matched photo, emphasis-applied length 801 selects Facing-spread and
length exactly 800 selects Embedded-image (never Facing-spread); length
≤ 400 with one photo selects Simple; two or more photos select
Grid-with-text; zero photos select Simple. -/
theorem C6_layout_thresholds (names : List (List Char)) (ch : Chapter) (photos : List Photo) :
    (photos.length = 1 → (highlightNames names ch.narrative).length = 801 →
        chapterLayout photos.length (highlightNames names ch.narrative).length = Layout.facing) ∧
      ((highlightNames names ch.narrative).length = 800 →
        chapterLayout photos.length (highlightNames names ch.narrative).length ≠ Layout.facing) ∧
      (photos.length = 1 → (highlightNames names ch.narrative).length = 800 →
        chapterLayout photos.length (highlightNames names ch.narrative).length
          = Layout.embedded) ∧
      (photos.length = 1 → (highlightNames names ch.narrative).length ≤ 400 →
        chapterLayout photos.length (highlightNames names ch.narrative).length = Layout.simple) ∧
      (2 ≤ photos.length →
        chapterLayout photos.length (highlightNames names ch.narrative).length = Layout.grid) ∧
      (photos.length = 0 →
        chapterLayout photos.length (highlightNames names ch.narrative).length
          = Layout.simple) := by
  refine ⟨?_, ?_, ?_, ?_, ?_, ?_⟩
  · intro h1 h2
    rw [h1, h2]
    decide
  · intro h2
    rw [h2]
    unfold chapterLayout
    split_ifs with ha hb hc
    · exact absurd ha.2.2 (by omega)
    · decide
    · decide
    · decide
  · intro h1 h2
    rw [h1, h2]
    decide
  · intro h1 h2
    rw [h1]
    unfold chapterLayout
    split_ifs with ha hb hc
    · exact absurd ha.2.2 (by omega)
    · exact absurd hb.2 (by omega)
    · exact absurd hc.2.2 (by omega)
    · rfl
  · intro h2
    unfold chapterLayout
    split_ifs with ha hb hc
    · exact absurd ha.2.1 (by omega)
    · rfl
    · exact absurd hc.2.1 (by omega)
    · exact absurd ⟨by omega, h2⟩ hb
  · intro h1
    rw [h1]
    rfl

set_option maxRecDepth 8192 in
/-- Witness for C6: one photo with emphasis-applied length 801 gives the
facing spread; length exactly 800 gives the embedded-image layout. -/
theorem C6_layout_thresholds_witness :
    chapterLayout 1 801 = Layout.facing ∧ chapterLayout 1 800 = Layout.embedded :=
  ⟨(C6_layout_thresholds [] ⟨[], List.replicate 801 'a'⟩
      [⟨0, "m.jpg", [], [], none, []⟩]).1 (by decide) (by simp [highlightNames]),
    (C6_layout_thresholds [] ⟨[], List.replicate 800 'a'⟩
      [⟨0, "m.jpg", [], [], none, []⟩]).2.2.1 (by decide) (by simp [highlightNames])⟩

set_option maxRecDepth 8192 in
/-- C7 (code bug): a chapter with one matched photo and narrative longer
than 800 characters whose photo path fails to resolve produces NO blocks
at all — the narrative paragraphs are dropped together with the image,
although the narrative is nonempty. -/
theorem C7_facing_spread_drops_text :
    createChapterHtml (fun _ => none) [] ⟨"T".toList, List.replicate 801 'a'⟩
        [⟨0, "m.jpg", [], [], none, []⟩] = [] ∧
      makeParagraphs (List.replicate 801 'a') ≠ [] := by
  constructor
  · decide
  · decide

theorem tocLoop_nil_avail (names : List (List Char)) (resolve : String → Option String) :
    ∀ (chs : List Chapter) (used : Finset String) (thumbs : List (List Char × String)),
      (tocLoop names [] resolve used thumbs chs).1 = used ∧
        (tocLoop names [] resolve used thumbs chs).2.1 = thumbs := by
  intro chs
  induction chs with
  | nil => intro used thumbs; exact ⟨rfl, rfl⟩
  | cons ch rest ih => intro used thumbs; exact ih used thumbs

theorem chapLoop_nil_avail (names : List (List Char)) (resolve : String → Option String) :
    ∀ (chs : List Chapter) (used : Finset String),
      (chapLoop names [] resolve used chs).1 = used ∧
        ∀ bs ∈ (chapLoop names [] resolve used chs).2.1,
          ∃ ch : Chapter, bs = createChapterHtml resolve names ch [] := by
  intro chs
  induction chs with
  | nil =>
    intro used
    refine ⟨rfl, ?_⟩
    intro bs hbs
    rw [chapLoop_nil] at hbs
    simp at hbs
  | cons ch rest ih =>
    intro used
    refine ⟨(ih _).1, ?_⟩
    intro bs hbs
    rw [chapLoop_cons] at hbs
    rcases List.mem_cons.mp hbs with rfl | hbs
    · exact ⟨ch, rfl⟩
    · exact (ih _).2 bs hbs

theorem createChapterHtml_nil_textOnly (resolve : String → Option String)
    (names : List (List Char)) (ch : Chapter) :
    ∀ b ∈ createChapterHtml resolve names ch [], isTextBlock b = true := by
  intro b hb
  have hb' : b ∈ ((makeParagraphs (highlightNames names ch.narrative)).map Block.para ++
      (match extractPullQuote (highlightNames names ch.narrative) 150 with
        | some q => [Block.quote q]
        | none => [])) ++ ([] : List Block) := hb
  rw [List.append_nil] at hb'
  rcases List.mem_append.mp hb' with h | h
  · rcases List.mem_map.mp h with ⟨t, _, rfl⟩
    rfl
  · cases hpq : extractPullQuote (highlightNames names ch.narrative) 150 with
    | none =>
      rw [hpq] at h
      simp at h
    | some q =>
      rw [hpq] at h
      obtain rfl : b = Block.quote q := by simpa using h
      rfl

theorem filterMap_none_thumbs : ∀ chs : List Chapter,
    (chs.map fun ch => (ch.title, lookupThumb [] ch.title)).filterMap (·.2) = []
  | [] => rfl
  | ch :: rest => filterMap_none_thumbs rest

/-- C8 (confirmed): a photo-catalog load failure degrades gracefully — the
run is identical to a run with an empty catalog; with no hero photo the
resulting document is text-only (no cover image, no TOC thumbnails, only
paragraph and pull-quote blocks in every chapter). -/
theorem C8_catalog_failure_degrades (names : List (List Char)) (chapters : List Chapter)
    (hero : Option String) (resolve : String → Option String) (e : Unit) :
    generateBiography names chapters (Except.error e) hero resolve
        = generateBiography names chapters (Except.ok []) hero resolve ∧
      (hero = none →
        (generateBiography names chapters (Except.error e) hero resolve).coverFilename = none ∧
          tocDisplayed (generateBiography names chapters (Except.error e) hero resolve) = [] ∧
          ∀ bs ∈ (generateBiography names chapters (Except.error e) hero resolve).chapterBlocks,
            ∀ b ∈ bs, isTextBlock b = true) := by
  refine ⟨rfl, ?_⟩
  rintro rfl
  refine ⟨rfl, ?_, ?_⟩
  · have h2 : tocDisplayed (generateBiography names chapters (Except.error e) none resolve)
        = (chapters.map fun ch => (ch.title, lookupThumb
            (tocLoop names [] resolve (coverStep resolve [] none).2 [] chapters).2.1
            ch.title)).filterMap (·.2) := rfl
    rw [h2, (tocLoop_nil_avail names resolve chapters (coverStep resolve [] none).2 []).2]
    exact filterMap_none_thumbs chapters
  · intro bs hbs b hb
    have hbs' : bs ∈ (chapLoop names [] resolve
        (tocLoop names [] resolve (coverStep resolve [] none).2 [] chapters).1 chapters).2.1 :=
      hbs
    rcases (chapLoop_nil_avail names resolve chapters _).2 bs hbs' with ⟨ch, rfl⟩
    exact createChapterHtml_nil_textOnly resolve names ch b hb

/-- Witness for C8 at a concrete run. -/
theorem C8_catalog_failure_degrades_witness :
    generateBiography [] [⟨"t".toList, []⟩] (Except.error ()) none (fun _ => some "p")
        = generateBiography [] [⟨"t".toList, []⟩] (Except.ok []) none (fun _ => some "p") ∧
      (generateBiography [] [⟨"t".toList, []⟩] (Except.error ()) none
          (fun _ => some "p")).coverFilename = none :=
  ⟨(C8_catalog_failure_degrades [] [⟨"t".toList, []⟩] none (fun _ => some "p") ()).1,
    ((C8_catalog_failure_degrades [] [⟨"t".toList, []⟩] none (fun _ => some "p") ()).2 rfl).1⟩

/-- C9 (confirmed): whenever the pull-quote extractor returns a string,
that string contains no exclamation or question mark and exactly one
period, its final character — the sentence-terminating punctuation is
consumed by the split. -/
theorem C9_pull_quote_shape (text : List Char) (maxLength : Nat) (q : List Char)
    (h : extractPullQuote text maxLength = some q) :
    q.count '.' = 1 ∧ q.count '!' = 0 ∧ q.count '?' = 0 ∧ q.getLast? = some '.' := by
  unfold extractPullQuote at h
  dsimp only at h
  split at h
  · rename_i s heq
    obtain rfl : pyStrip s ++ ['.'] = q := Option.some.inj h
    exact quoteShape (List.mem_of_find?_eq_some heq)
  · split at h
    · rename_i s heq
      obtain rfl : pyStrip s ++ ['.'] = q := Option.some.inj h
      exact quoteShape (List.mem_of_find?_eq_some heq)
    · cases h

/-- Witness for C9 at the spec's own pull-quote input. -/
theorem C9_pull_quote_shape_witness :
    ("I will always remember that summer.".toList).count '.' = 1 ∧
      ("I will always remember that summer.".toList).count '!' = 0 ∧
      ("I will always remember that summer.".toList).count '?' = 0 ∧
      ("I will always remember that summer.".toList).getLast? = some '.' :=
  C9_pull_quote_shape
    "It was fine. I will always remember that summer! We laughed.".toList 150
    "I will always remember that summer.".toList (by decide)

/-- C10 (confirmed): TOC thumbnails are stored in a map keyed by chapter
title, so two chapters with the same title display the same thumbnail (or
both none), regardless of which photos their matching calls consumed. -/
theorem C10_toc_thumbnail_by_title (names : List (List Char)) (chapters : List Chapter)
    (catalogResult : Except Unit (List Photo)) (hero : Option String)
    (resolve : String → Option String) (i j : Nat) (ci cj : Chapter)
    (hi : chapters[i]? = some ci) (hj : chapters[j]? = some cj) (ht : ci.title = cj.title) :
    ((generateBiography names chapters catalogResult hero resolve).tocEntries[i]?).map (·.2)
      = ((generateBiography names chapters catalogResult hero resolve).tocEntries[j]?).map
          (·.2) := by
  have hT : ∀ (k : Nat) (ck : Chapter), chapters[k]? = some ck →
      ((generateBiography names chapters catalogResult hero resolve).tocEntries[k]?).map (·.2)
        = some (lookupThumb (tocLoop names (availableOf catalogResult) resolve
            (coverStep resolve (availableOf catalogResult) hero).2 [] chapters).2.1
            ck.title) := by
    intro k ck hk
    have h0 : (generateBiography names chapters catalogResult hero resolve).tocEntries[k]?
        = ((chapters.map fun ch => (ch.title, lookupThumb (tocLoop names
            (availableOf catalogResult) resolve
            (coverStep resolve (availableOf catalogResult) hero).2 [] chapters).2.1
            ch.title))[k]?) := rfl
    rw [h0, List.getElem?_map, hk]
    rfl
  rw [hT i ci hi, hT j cj hj, ht]

/-- C1 counterexample: with an explicitly supplied hero photo the cover is
NOT marked used, so the same filename is displayed on the cover and as a
TOC thumbnail in the same run. -/
theorem C1_counterexample :
    (generateBiography [] [⟨"1990".toList, []⟩]
        (Except.ok [⟨0, "f.jpg", [], [], some 1990, []⟩]) (some "f.jpg")
        (fun _ => some "p")).coverFilename = some "f.jpg" ∧
      "f.jpg" ∈ tocDisplayed (generateBiography [] [⟨"1990".toList, []⟩]
        (Except.ok [⟨0, "f.jpg", [], [], some 1990, []⟩]) (some "f.jpg")
        (fun _ => some "p")) := by
  decide

/-- C2 counterexample: the hero photo is selected for the cover but never
enters the used set, so a later matcher call in the same run returns the
same photo. -/
theorem C2_counterexample :
    (generateBiography [] [⟨"1990".toList, []⟩]
        (Except.ok [⟨0, "f.jpg", [], [], some 1990, []⟩]) (some "f.jpg")
        (fun _ => some "p")).coverFilename = some "f.jpg" ∧
      ∃ c ∈ (generateBiography [] [⟨"1990".toList, []⟩]
          (Except.ok [⟨0, "f.jpg", [], [], some 1990, []⟩]) (some "f.jpg")
          (fun _ => some "p")).calls,
        "f.jpg" ∈ c.returned.map (·.filename) := by
  decide

/-- Witness for C2 at a concrete run: the catalog filenames are distinct,
and the theorem yields that the second call cannot return the filename
already in the used set after the first call. -/
theorem C2_monotonic_exclusion_amended_witness :
    ((availableOf (Except.ok [⟨0, "f.jpg", [], [], some 1990, []⟩])).map (·.filename)).Nodup ∧
      "f.jpg" ∉ (⟨{"f.jpg"}, ([] : List Photo), {"f.jpg"}⟩ : CallRec).returned.map
        (·.filename) :=
  ⟨by decide,
    (C2_monotonic_exclusion_amended [] [⟨"1990".toList, []⟩]
        (Except.ok [⟨0, "f.jpg", [], [], some 1990, []⟩]) none (fun _ => some "p")
        (by decide)).2.1 0 1
      ⟨{"f.jpg"}, ([] : List Photo), {"f.jpg"}⟩
      ⟨{"f.jpg"}, ([] : List Photo), {"f.jpg"}⟩
      (by decide) (by decide) (by decide) "f.jpg" (by decide)⟩

/-- Witness for C1 at a concrete hero-free run. -/
theorem C1_no_duplicate_amended_witness :
    ¬ ((generateBiography [] [⟨"1990".toList, []⟩]
          (Except.ok [⟨0, "f.jpg", [], [], some 1990, []⟩]) none
          (fun _ => some "p")).coverFilename = some "f.jpg" ∧
        "f.jpg" ∈ tocDisplayed (generateBiography [] [⟨"1990".toList, []⟩]
          (Except.ok [⟨0, "f.jpg", [], [], some 1990, []⟩]) none (fun _ => some "p"))) :=
  (C1_no_duplicate_amended [] [⟨"1990".toList, []⟩]
      (Except.ok [⟨0, "f.jpg", [], [], some 1990, []⟩]) (fun _ => some "p")).1 "f.jpg"

/-- Witness for C10: two chapters with the same title whose TOC matching
consumed different photos still display the same thumbnail. -/
theorem C10_toc_thumbnail_by_title_witness :
    (⟨"1990".toList, []⟩ : Chapter).title = (⟨"1990".toList, []⟩ : Chapter).title ∧
      ((generateBiography [] [⟨"1990".toList, []⟩, ⟨"1990".toList, []⟩]
          (Except.ok [⟨0, "a.jpg", [], [], some 1990, []⟩, ⟨1, "b.jpg", [], [], some 1990, []⟩])
          (some "h.jpg") (fun _ => some "p")).tocEntries[0]?).map (·.2)
        = ((generateBiography [] [⟨"1990".toList, []⟩, ⟨"1990".toList, []⟩]
            (Except.ok [⟨0, "a.jpg", [], [], some 1990, []⟩,
              ⟨1, "b.jpg", [], [], some 1990, []⟩])
            (some "h.jpg") (fun _ => some "p")).tocEntries[1]?).map (·.2) :=
  ⟨rfl,
    C10_toc_thumbnail_by_title [] [⟨"1990".toList, []⟩, ⟨"1990".toList, []⟩]
      (Except.ok [⟨0, "a.jpg", [], [], some 1990, []⟩, ⟨1, "b.jpg", [], [], some 1990, []⟩])
      (some "h.jpg") (fun _ => some "p") 0 1 ⟨"1990".toList, []⟩ ⟨"1990".toList, []⟩
      (by decide) (by decide) rfl⟩
